import Mathlib

/-!
Verification of the cpcp concurrent copy engine (cpcp.go) against its
specification.  The Go source is shallowly embedded: file modes are naturals,
channels are lists with explicit capacities, the worker's per-task execution is
a pure function from a task plus the outcomes of the filesystem primitives to
the trace of operations it performs, and a single-worker run of the whole
engine is a fuel-indexed step function over the channel state.
-/

namespace Cpcp

/-! ### File modes (Go io/fs FileMode bits used by cpcp.go) -/

/-- Go os.ModeDir = 1 shifted left 31. -/
def modeDir : Nat := 2 ^ 31

/-- Go os.ModeSymlink = 1 shifted left 27. -/
def modeSymlink : Nat := 2 ^ 27

/-- Go os.ModeType = ModeDir | ModeSymlink | ModeNamedPipe | ModeSocket |
ModeDevice | ModeCharDevice | ModeIrregular: the type bits that must all be
clear for FileMode.IsRegular to hold. -/
def modeType : Nat :=
  modeDir ||| modeSymlink ||| 2 ^ 25 ||| 2 ^ 24 ||| 2 ^ 26 ||| 2 ^ 21 ||| 2 ^ 19

/-- File metadata as the worker consumes it: the FileMode word of os.FileInfo. -/
structure FInfo where
  mode : Nat
deriving DecidableEq

/-- Go FileInfo.IsDir: mode & ModeDir != 0. -/
def FInfo.IsDir (fi : FInfo) : Bool := fi.mode &&& modeDir != 0

/-- Go FileMode.IsRegular: mode & ModeType == 0. -/
def FInfo.IsRegular (fi : FInfo) : Bool := fi.mode &&& modeType == 0

/-- The symlink test exactly as cpcp.go line 394 writes it:
srcfi.Mode()|os.ModeSymlink != 0 — an inclusive OR against the symlink bit. -/
def symlinkTestAsWritten (m : Nat) : Bool := m ||| modeSymlink != 0

/-! ### Configuration (struct config, cpcp.go lines 146-158) -/

structure Config where
  verbosity : Nat
  noDereference : Bool
  recursive : Bool
  parallelTasks : Nat
  umask : Nat
  preserveLinks : Bool
  preserveMode : Bool
deriving DecidableEq

/-- Embedding of Go strings.Split(arg, ",") by structural recursion over the
characters. -/
def splitCommaAux : List Char → List Char → List String
  | [], acc => [String.mk acc.reverse]
  | c :: cs, acc =>
    if c = ',' then String.mk acc.reverse :: splitCommaAux cs []
    else splitCommaAux cs (c :: acc)

/-- Go strings.Split(arg, ","). -/
def splitComma (s : String) : List String := splitCommaAux s.data []

/-- The preserve-attribute parser, from setPreserve in parseArgs (cpcp.go
lines 173-190): each comma-separated token flips the matching config flags. -/
def setPreserve (cfg : Config) (arg : String) : Option Config :=
  (splitComma arg).foldlM
    (fun c p =>
      match p with
      | "" => some c
      | "links" => some { c with preserveLinks := true }
      | "mode" => some { c with preserveMode := true }
      | "all" => some { c with preserveLinks := true, preserveMode := true }
      | _ => none)
    cfg

/-! ### Tasks (struct copyTask, cpcp.go lines 261-265) -/

structure CTask where
  src : String
  dst : String
  srcfi : FInfo
deriving DecidableEq

/-- Simplified model of Go path.Join for the paths cpcp builds (path.Clean
rewriting of dot segments is irrelevant to every claim below). -/
def pathJoin (a b : String) : String :=
  if a = "" then b else if b = "" then a else a ++ "/" ++ b

/-- Simplified model of Go path.Base: the final slash-separated element. -/
def pathBase (s : String) : String :=
  match (s.splitOn "/").reverse.find? (fun p => p ≠ "") with
  | some p => p
  | none => if s = "" then "." else "/"

/-! ### Per-task execution (worker body, cpcp.go lines 312-403)

The filesystem operations the worker performs are recorded as a trace.  The
outcome of each fallible primitive is an input (FSEnv), so one evaluation of
execTask is one control-flow path of the Go worker body. -/

inductive FOp where
  | msgLine (s : String)
  | errLine
  | mkdirOp (dst : String) (mode : Nat)
  | chmodOp (dst : String) (mode : Nat)
  | openDirOp (src : String)
  | openRead (src : String)
  | createWrite (dst : String)
  | copyData
  | closeRead (src : String)
  | closeWrite (dst : String)
  | readlinkOp (src : String)
  | symlinkOp (target : String) (dst : String)
deriving DecidableEq

inductive MkdirRes where
  | ok
  | alreadyExists
  | otherErr
deriving DecidableEq

/-- Outcomes of the filesystem primitives for one task execution. -/
structure FSEnv where
  mkdirRes : MkdirRes
  dirChmodOk : Bool
  dirOpenOk : Bool
  dirList : List (String × FInfo)
  dirListErrAfter : Bool
  openOk : Bool
  createOk : Bool
  copyOk : Bool
  chmodOk : Bool
  readlinkRes : Option String
  symlinkOk : Bool
deriving DecidableEq

/-- Result of one task execution: the operation trace, the number of
wg.Done calls made, the number of wg.Add calls made, and the child tasks
discovered (for a directory). -/
structure ExecOut where
  ops : List FOp
  wgDones : Nat
  wgAdds : Nat
  children : List CTask
deriving DecidableEq

/-- The worker's execution of one task, embedding cpcp.go lines 312-403.
Branches: directory (315-369), regular file (370-393), the symlink test as
written (394-400), then the unconditional wg.Done at line 402 — except the
omitting-directory branch (316-318), whose continue skips it. -/
def execTask (cfg : Config) (env : FSEnv) (t : CTask) : ExecOut :=
  let pre : List FOp :=
    if cfg.verbosity > 0 then [.msgLine (t.src ++ " -> " ++ t.dst)] else []
  if t.srcfi.IsDir then
    if !cfg.recursive then
      { ops := pre ++ [.errLine], wgDones := 0, wgAdds := 0, children := [] }
    else
      let m := if !cfg.preserveMode then t.srcfi.mode &&& cfg.umask else t.srcfi.mode
      let mk : List FOp :=
        [.mkdirOp t.dst m] ++
          (match env.mkdirRes with
           | .otherErr => [.errLine]
           | _ => [])
      let ch : List FOp :=
        if cfg.preserveMode then
          [.chmodOp t.dst m] ++ (if env.dirChmodOk then [] else [.errLine])
        else []
      if !env.dirOpenOk then
        { ops := pre ++ mk ++ ch ++ [.openDirOp t.src, .errLine],
          wgDones := 1, wgAdds := 0, children := [] }
      else
        let kids := env.dirList.map
          (fun nf => ⟨pathJoin t.src nf.1, pathJoin t.dst nf.1, nf.2⟩)
        { ops := pre ++ mk ++ ch ++ [.openDirOp t.src] ++
            (if env.dirListErrAfter then [.errLine] else []),
          wgDones := 1, wgAdds := kids.length, children := kids }
  else if t.srcfi.IsRegular then
    if !env.openOk then
      { ops := pre ++ [.openRead t.src, .errLine],
        wgDones := 1, wgAdds := 0, children := [] }
    else if !env.createOk then
      { ops := pre ++ [.openRead t.src, .createWrite t.dst, .errLine],
        wgDones := 1, wgAdds := 0, children := [] }
    else
      let m := if !cfg.preserveMode then t.srcfi.mode &&& cfg.umask else t.srcfi.mode
      { ops := pre ++ [.openRead t.src, .createWrite t.dst, .copyData] ++
          (if env.copyOk then [] else [.errLine]) ++
          [.closeRead t.src, .closeWrite t.dst, .chmodOp t.dst m] ++
          (if env.chmodOk then [] else [.errLine]),
        wgDones := 1, wgAdds := 0, children := [] }
  else if symlinkTestAsWritten t.srcfi.mode then
    match env.readlinkRes with
    | none =>
      { ops := pre ++ [.readlinkOp t.src, .errLine],
        wgDones := 1, wgAdds := 0, children := [] }
    | some target =>
      { ops := pre ++ [.readlinkOp t.src, .symlinkOp target t.dst] ++
          (if env.symlinkOk then [] else [.errLine]),
        wgDones := 1, wgAdds := 0, children := [] }
  else
    { ops := pre, wgDones := 1, wgAdds := 0, children := [] }

/-! ### Driver (func CPCP, cpcp.go lines 77-131)

Stat results are oracles: `statOf` models os.Stat, `lstatOf` models os.Lstat.
Error lines are tagged rather than carrying fmtErr's full text. -/

inductive StatRes where
  | ok (fi : FInfo)
  | notExist
  | err
deriving DecidableEq

inductive DriverErr where
  | statErr (path : String)
  | notADir (dst : String)
  | omitDir (src : String)
deriving DecidableEq

/-- Single-source driver path (cpcp.go lines 77-100): redirect into an
existing directory destination, stat or lstat the source, then either report
or submit one task. -/
def singleSourceSubmit (cfg : Config) (statOf lstatOf : String → StatRes)
    (src dst : String) : List DriverErr × List CTask :=
  let dst1 :=
    match statOf dst with
    | .ok dstfi => if dstfi.IsDir then pathJoin dst (pathBase src) else dst
    | _ => dst
  match (if cfg.noDereference then lstatOf src else statOf src) with
  | .ok srcfi =>
    if srcfi.IsDir && !cfg.recursive then ([.omitDir src], [])
    else ([], [⟨src, dst1, srcfi⟩])
  | _ => ([.statErr src], [])

/-- The per-source loop of the multi-source driver path (cpcp.go lines
108-129): each source is statted independently; failures and omitted
directories are reported and the loop continues. -/
def multiSubmitLoop (cfg : Config) (statOf lstatOf : String → StatRes)
    (dst : String) : List String → List DriverErr × List CTask
  | [] => ([], [])
  | src :: rest =>
    let out := multiSubmitLoop cfg statOf lstatOf dst rest
    match (if cfg.noDereference then lstatOf src else statOf src) with
    | .ok srcfi =>
      if srcfi.IsDir && !cfg.recursive then (.omitDir src :: out.1, out.2)
      else (out.1, ⟨src, pathJoin dst (pathBase src), srcfi⟩ :: out.2)
    | _ => (.statErr src :: out.1, out.2)

/-- Multi-source driver path (cpcp.go lines 101-130): the destination must
stat as an existing directory, else a single policy error and no tasks. -/
def multiSourceSubmit (cfg : Config) (statOf lstatOf : String → StatRes)
    (srcs : List String) (dst : String) : List DriverErr × List CTask :=
  match statOf dst with
  | .err => ([.statErr dst], [])
  | .notExist => ([.notADir dst], [])
  | .ok dstfi =>
    if !dstfi.IsDir then ([.notADir dst], [])
    else multiSubmitLoop cfg statOf lstatOf dst srcs

/-! ### Worker task acquisition (cpcp.go lines 285-311)

The two shared channels are modelled by their buffered contents: the free
pool as a count (its objects' stale fields are irrelevant here) and the Work
Queue as a FIFO list bounded by cap.  The local overflow buffer is a list
used as a stack from its end, exactly as localTasks is indexed in the Go. -/

structure WState where
  localTasks : List CTask
  free : Nat
  queue : List CTask
deriving DecidableEq

inductive AcqResult where
  | published (s : WState)
  | blockedOnSend (ct : CTask) (s : WState)
  | runLocal (ct : CTask) (s : WState)
  | recvShared (ct : CTask) (s : WState)
  | blockedOnRecv
deriving DecidableEq

/-- The acquisition phase as the code writes it (cpcp.go lines 289-311): pop
the last local task; select non-blockingly on the free pool; on success the
send to the Work Queue is a plain (blocking) send, so it blocks when the
queue is at capacity; with the pool empty the popped task is run locally.
With no local tasks the worker blocks receiving from the Work Queue and
returns the received object to the pool. -/
def acquireStepCode (cap : Nat) (s : WState) : AcqResult :=
  match s.localTasks.getLast? with
  | some ct =>
    let rest := s.localTasks.dropLast
    if s.free > 0 then
      if s.queue.length < cap then
        .published ⟨rest, s.free - 1, s.queue ++ [ct]⟩
      else
        .blockedOnSend ct ⟨rest, s.free - 1, s.queue⟩
    else
      .runLocal ct ⟨rest, s.free, s.queue⟩
  | none =>
    match s.queue with
    | [] => .blockedOnRecv
    | ct :: q => .recvShared ct ⟨s.localTasks, s.free + 1, q⟩

/-- The acquisition phase as the specification words it: a non-blocking pool
acquire AND a non-blocking queue send are attempted; only if both can succeed
is the buffered item published, otherwise it is run locally. -/
def acquireStepSpecWords (cap : Nat) (s : WState) : AcqResult :=
  match s.localTasks.getLast? with
  | some ct =>
    let rest := s.localTasks.dropLast
    if s.free > 0 ∧ s.queue.length < cap then
      .published ⟨rest, s.free - 1, s.queue ++ [ct]⟩
    else
      .runLocal ct ⟨rest, s.free, s.queue⟩
  | none =>
    match s.queue with
    | [] => .blockedOnRecv
    | ct :: q => .recvShared ct ⟨s.localTasks, s.free + 1, q⟩

/-! ### Shared-path iteration events (cpcp.go lines 305-311 and 402)

The order of the channel operations in one shared-path iteration, with the
field values the returned object carries at the moment it is handed back. -/

inductive IterEv where
  | recvTask (t : CTask)
  | returnToPool (t : CTask)
  | execute (t : CTask)
deriving DecidableEq

/-- One shared-path iteration (cpcp.go lines 306-311 then 312-403): the
object is received, its fields are copied into locals, it is handed back to
the free pool unmodified, and only then is the task executed. -/
def sharedIterEvents (ct : CTask) : List IterEv :=
  [.recvTask ct, .returnToPool ct, .execute ct]

/-- Claim-side check: every object handed back to the pool has its fields
cleared at that moment. -/
def returnsCleared (evs : List IterEv) : Bool :=
  evs.all fun e =>
    match e with
    | .returnToPool t => t.src == "" && t.dst == ""
    | _ => true

/-- Claim-side check: no object is handed back to the pool before the
iteration's task has been executed. -/
def returnsOnlyAfterExec (evs : List IterEv) : Bool :=
  (evs.takeWhile fun e =>
    match e with
    | .execute _ => false
    | _ => true).all fun e =>
      match e with
      | .returnToPool _ => false
      | _ => true

/-! ### Single-worker run of the engine (cpcp.go lines 70-99 and 282-403)

A source tree stands for the part of the filesystem a run copies; the
dispatch by node kind corresponds to the worker's srcfi mode tests with
error-free filesystem outcomes.  Task src and dst strings do not influence
scheduling or the completion counter, so simulator tasks are the trees
themselves.  One worker runs the whole job: this is the adversarial schedule
for the no-deadlock property, since nobody else ever drains the Work Queue
for the discovering worker. -/

inductive FSTree where
  | file : FSTree
  | link : FSTree
  | dir (children : List FSTree) : FSTree

mutual

/-- Number of nodes in a tree: every node becomes exactly one task. -/
def FSTree.size : FSTree → Nat
  | .file => 1
  | .link => 1
  | .dir cs => 1 + FSTree.sizeL cs

/-- Total number of nodes in a list of trees. -/
def FSTree.sizeL : List FSTree → Nat
  | [] => 0
  | t :: ts => t.size + FSTree.sizeL ts

end

/-- Simulator state: the worker's local overflow stack, the Work Queue
contents, the free-pool count, and the wg.Add / wg.Done call counts of the
WaitGroup completion tracker. -/
structure SimSt where
  localTasks : List FSTree
  queue : List FSTree
  free : Nat
  added : Nat
  done : Nat

/-- Publication of one discovered child (cpcp.go lines 347-360): wg.Add(1),
then a non-blocking pool acquire; on success the child goes to the Work
Queue, otherwise onto the local overflow buffer. -/
def pushChild (s : SimSt) (c : FSTree) : SimSt :=
  let s1 := { s with added := s.added + 1 }
  if s1.free > 0 then
    { s1 with free := s1.free - 1, queue := s1.queue ++ [c] }
  else
    { s1 with localTasks := s1.localTasks ++ [c] }

/-- The Readdir loop over all child entries in listing order (cpcp.go lines
342-369); batching only splits the same sequence of per-child actions. -/
def pushChildren (s : SimSt) (cs : List FSTree) : SimSt :=
  cs.foldl pushChild s

/-- Execution of one task in the simulator (cpcp.go lines 315-403 with all
filesystem primitives succeeding): a directory publishes its children and
completes; the omitting-directory branch (lines 316-318) continues without
wg.Done; files and links just complete. -/
def simExec (recursive : Bool) (s : SimSt) (t : FSTree) : SimSt :=
  match t with
  | .dir cs =>
    if recursive then
      let s1 := pushChildren s cs
      { s1 with done := s1.done + 1 }
    else s
  | _ => { s with done := s.done + 1 }

inductive SimStepRes where
  | next (s : SimSt)
  | blockedRecv
  | blockedSend

/-- One worker loop iteration (cpcp.go lines 285-403): acquisition exactly as
acquireStepCode, followed by execution of the acquired task if any. -/
def simStep (cap : Nat) (recursive : Bool) (s : SimSt) : SimStepRes :=
  match s.localTasks.getLast? with
  | some ct =>
    let rest := s.localTasks.dropLast
    if s.free > 0 then
      if s.queue.length < cap then
        .next { s with localTasks := rest, free := s.free - 1,
                       queue := s.queue ++ [ct] }
      else .blockedSend
    else .next (simExec recursive { s with localTasks := rest } ct)
  | none =>
    match s.queue with
    | [] => .blockedRecv
    | ct :: q =>
      .next (simExec recursive { s with queue := q, free := s.free + 1 } ct)

/-- Fuel-indexed iteration of simStep.  The run completes (some) when the
worker reaches its blocking receive with nothing left; none means either the
fuel ran out or a send blocked. -/
def simRun (cap : Nat) (recursive : Bool) : Nat → SimSt → Option SimSt
  | 0, _ => none
  | fuel + 1, s =>
    match simStep cap recursive s with
    | .blockedRecv => some s
    | .blockedSend => none
    | .next s1 => simRun cap recursive fuel s1

/-- Initial state after the driver submits the root task (cpcp.go lines
70-75 and 94-99): cap objects were preallocated into the pool, one was taken
(blocking), filled, counted with wg.Add(1) and sent to the Work Queue. -/
def initSt (cap : Nat) (root : FSTree) : SimSt :=
  { localTasks := [], queue := [root], free := cap - 1, added := 1, done := 0 }

/-- The channel/counter invariant of a single-worker run between iterations:
every task counted but not finished sits in the overflow buffer or the Work
Queue, and the cap preallocated pool objects are split between the free pool
and the Work Queue. -/
def SimInv (cap : Nat) (s : SimSt) : Prop :=
  s.added = s.done + s.localTasks.length + s.queue.length ∧
  s.free + s.queue.length = cap

/-- Potential of the queued work: a local task may cost two iterations
(publish then execute), a queued task one, plus the same for descendants. -/
def qphiL : List FSTree → Nat
  | [] => 0
  | t :: ts => (2 * t.size - 1) + qphiL ts

/-- Potential of a simulator state, an upper bound on remaining iterations. -/
def phi (s : SimSt) : Nat :=
  2 * FSTree.sizeL s.localTasks + qphiL s.queue

/-! ### Trace projections used to state the claims -/

/-- The permission-bit arguments a task execution hands to the filesystem, in
order: the mode of every Mkdir and of every Chmod in the trace. -/
def modesApplied (ops : List FOp) : List Nat :=
  ops.filterMap fun op =>
    match op with
    | .mkdirOp _ m => some m
    | .chmodOp _ m => some m
    | _ => none

/-- The (target, destination) pairs of every Symlink creation in the trace. -/
def symlinksCreated (ops : List FOp) : List (String × String) :=
  ops.filterMap fun op =>
    match op with
    | .symlinkOp t d => some (t, d)
    | _ => none

/-! ### Basic facts about modes -/

theorem modeSymlink_pos : 0 < modeSymlink := by decide

theorem symlinkTest_eq_true (m : Nat) : symlinkTestAsWritten m = true := by
  have h : m ||| modeSymlink ≠ 0 := by
    intro h0
    have h27 : (m ||| modeSymlink).testBit 27 = false := by
      rw [h0]; exact Nat.zero_testBit 27
    rw [Nat.testBit_lor] at h27
    have hs : modeSymlink.testBit 27 = true := by decide
    simp [hs] at h27
  simpa [symlinkTestAsWritten] using h

/-- A mode passing Go's IsRegular (all type bits clear) fails IsDir. -/
theorem isRegular_then_not_isDir (fi : FInfo) (h : fi.IsRegular = true) :
    fi.IsDir = false := by
  have hz : fi.mode &&& modeType = 0 := by
    simpa [FInfo.IsRegular] using h
  have h31 : fi.mode.testBit 31 = false := by
    by_contra hb
    have hb' : fi.mode.testBit 31 = true := by
      revert hb; cases fi.mode.testBit 31 <;> simp
    have hc : (fi.mode &&& modeType).testBit 31 = true := by
      rw [Nat.testBit_land, hb']
      have ht : modeType.testBit 31 = true := by decide
      simp [ht]
    rw [hz] at hc
    simp [Nat.zero_testBit] at hc
  have hd : fi.mode &&& modeDir = 0 := by
    have ha := Nat.and_two_pow fi.mode 31
    have hm : modeDir = 2 ^ 31 := by decide
    rw [hm, ha, h31]
    simp
  simp [FInfo.IsDir, hd]

/-- A mode carrying the symlink bit fails Go's IsRegular. -/
theorem symlinkBit_then_not_isRegular (fi : FInfo)
    (h : fi.mode &&& modeSymlink ≠ 0) : fi.IsRegular = false := by
  have h27 : fi.mode.testBit 27 = true := by
    by_contra hb
    have hb' : fi.mode.testBit 27 = false := by
      revert hb; cases fi.mode.testBit 27 <;> simp
    have ha := Nat.and_two_pow fi.mode 27
    have hm : modeSymlink = 2 ^ 27 := by decide
    rw [hm, ha, hb'] at h
    simp at h
  have hs : fi.mode &&& modeType ≠ 0 := by
    intro hz
    have hc : (fi.mode &&& modeType).testBit 27 = true := by
      rw [Nat.testBit_land, h27]
      have ht : modeType.testBit 27 = true := by decide
      simp [ht]
    rw [hz] at hc
    simp [Nat.zero_testBit] at hc
  simp [FInfo.IsRegular, hs]

/-- C5: the worker's symlink test as implemented — the source mode
bitwise-ORed with the symlink mode bit, compared against zero — evaluates to
true for every possible file mode value, because the inclusive OR with the
nonzero symlink bit can never be zero (the code uses OR where a bit-masked
AND test was needed). -/
theorem c5_symlink_test_always_true (m : Nat) : symlinkTestAsWritten m = true :=
  symlinkTest_eq_true m

/-- C4: permission rule.  For a regular file the engine copies (source opens
and destination creates successfully), the one mode it applies to the
destination is the source mode AND the captured umask mask when preserve-mode
is false, and the exact source mode when it is true.  For a directory copied
with recursion enabled, the mode handed to Mkdir follows the same rule, and
when preserve-mode is set the exact source mode is re-applied by an explicit
Chmod after the Mkdir. -/
theorem c4_permission_rule (cfg : Config) (env : FSEnv) (t : CTask) :
    (t.srcfi.IsRegular = true → env.openOk = true → env.createOk = true →
      modesApplied (execTask cfg env t).ops =
        [if cfg.preserveMode then t.srcfi.mode else t.srcfi.mode &&& cfg.umask]) ∧
    (t.srcfi.IsDir = true → cfg.recursive = true →
      modesApplied (execTask cfg env t).ops =
        if cfg.preserveMode then [t.srcfi.mode, t.srcfi.mode]
        else [t.srcfi.mode &&& cfg.umask]) := by
  constructor
  · intro hreg ho hc
    have hdir := isRegular_then_not_isDir t.srcfi hreg
    by_cases hp : cfg.preserveMode <;>
      by_cases hv : cfg.verbosity > 0 <;>
      by_cases hcp : env.copyOk <;>
      by_cases hch : env.chmodOk <;>
      simp [execTask, hdir, hreg, ho, hc, hp, hv, hcp, hch, modesApplied,
        List.filterMap_append]
  · intro hdir hrec
    have hnr : (!cfg.recursive) = false := by simp [hrec]
    cases hm : env.mkdirRes <;>
      by_cases hp : cfg.preserveMode <;>
      by_cases hv : cfg.verbosity > 0 <;>
      by_cases hdo : env.dirOpenOk <;>
      by_cases hdc : env.dirChmodOk <;>
      by_cases hde : env.dirListErrAfter <;>
      simp [execTask, hdir, hnr, hm, hp, hv, hdo, hdc, hde, modesApplied,
        List.filterMap_append]

/-- C6: symlink round-trip.  With no-dereference set the driver lstats the
source; for a source whose mode carries the symlink bit (and, being a
symlink, not the directory bit) it submits exactly one task and no error, and
the worker executing that task, when reading the link succeeds, creates at
the destination exactly one symbolic link whose target string is exactly the
string read from the source link. -/
theorem c6_symlink_round_trip (cfg : Config) (env : FSEnv)
    (statOf lstatOf : String → StatRes) (src dst target : String) (fi : FInfo)
    (hnd : cfg.noDereference = true)
    (hl : lstatOf src = .ok fi)
    (hsym : fi.mode &&& modeSymlink ≠ 0)
    (hnotdir : fi.mode &&& modeDir = 0)
    (hrl : env.readlinkRes = some target) :
    (singleSourceSubmit cfg statOf lstatOf src dst).1 = [] ∧
    ∃ d1, (singleSourceSubmit cfg statOf lstatOf src dst).2 = [⟨src, d1, fi⟩] ∧
      symlinksCreated (execTask cfg env ⟨src, d1, fi⟩).ops = [(target, d1)] := by
  have hdirF : fi.IsDir = false := by simp [FInfo.IsDir, hnotdir]
  have hregF := symlinkBit_then_not_isRegular fi hsym
  have htest := symlinkTest_eq_true fi.mode
  constructor
  · simp [singleSourceSubmit, hnd, hl, hdirF]
  · refine ⟨(match statOf dst with
      | .ok dstfi => if dstfi.IsDir then pathJoin dst (pathBase src) else dst
      | _ => dst), ?_, ?_⟩
    · simp [singleSourceSubmit, hnd, hl, hdirF]
    · by_cases hv : cfg.verbosity > 0 <;>
        by_cases hso : env.symlinkOk <;>
        simp [execTask, hdirF, hregF, htest, hrl, hv, hso, symlinksCreated,
          List.filterMap_append]

/-- C4 witness: a regular file of mode 644 copied with preserve-mode off and
umask mask 022 has exactly the mode 644 AND 022 applied. -/
theorem c4_permission_rule_witness :
    (FInfo.IsRegular ⟨0o644⟩ = true) ∧
    (modesApplied (execTask ⟨0, false, true, 1000, 0o022, false, false⟩
        ⟨.ok, true, true, [], false, true, true, true, true, none, true⟩
        ⟨"a", "b", ⟨0o644⟩⟩).ops = [0o644 &&& 0o022]) :=
  ⟨by decide, by
    have h := (c4_permission_rule ⟨0, false, true, 1000, 0o022, false, false⟩
        ⟨.ok, true, true, [], false, true, true, true, true, none, true⟩
        ⟨"a", "b", ⟨0o644⟩⟩).1 (by decide) rfl rfl
    simpa using h⟩

/-- C6 witness: a symlink-mode source lstatted under no-dereference, whose
link reads as the string tgt, yields one submitted task and one created
destination symlink with target exactly tgt. -/
theorem c6_symlink_round_trip_witness :
    ((modeSymlink + 0o777) &&& modeSymlink ≠ 0) ∧
    ((modeSymlink + 0o777) &&& modeDir = 0) ∧
    ((singleSourceSubmit ⟨0, true, true, 1000, 0, false, false⟩
        (fun _ => .notExist) (fun _ => .ok ⟨modeSymlink + 0o777⟩) "s" "d").1 = [] ∧
      ∃ d1, (singleSourceSubmit ⟨0, true, true, 1000, 0, false, false⟩
          (fun _ => .notExist) (fun _ => .ok ⟨modeSymlink + 0o777⟩) "s" "d").2
        = [⟨"s", d1, ⟨modeSymlink + 0o777⟩⟩] ∧
        symlinksCreated (execTask ⟨0, true, true, 1000, 0, false, false⟩
          ⟨.ok, true, true, [], false, true, true, true, true, some "tgt", true⟩
          ⟨"s", d1, ⟨modeSymlink + 0o777⟩⟩).ops = [("tgt", d1)]) :=
  ⟨by decide, by decide,
    c6_symlink_round_trip ⟨0, true, true, 1000, 0, false, false⟩
      ⟨.ok, true, true, [], false, true, true, true, true, some "tgt", true⟩
      (fun _ => .notExist) (fun _ => .ok ⟨modeSymlink + 0o777⟩)
      "s" "d" "tgt" ⟨modeSymlink + 0o777⟩
      rfl rfl (by decide) (by decide) rfl⟩

/-- C8: at the failing input — a regular-file task whose source opens
successfully but whose destination create fails — the worker's trace opens
the source for reading and never closes it: the close of both descriptors
lives only on the successful-create path (cpcp.go lines 383-384), so the
claimed descriptor discipline fails on this path. -/
theorem c8_create_fail_leaks_source_descriptor :
    ((execTask ⟨0, false, true, 1000, 0o022, false, false⟩
        ⟨.ok, true, true, [], false, true, false, true, true, none, true⟩
        ⟨"a", "b", ⟨0o644⟩⟩).ops.contains (.openRead "a") = true) ∧
    ((execTask ⟨0, false, true, 1000, 0o022, false, false⟩
        ⟨.ok, true, true, [], false, true, false, true, true, none, true⟩
        ⟨"a", "b", ⟨0o644⟩⟩).ops.contains (.closeRead "a") = false) := by
  constructor <;> decide

/-- C9 counterexample: in a concrete shared-path iteration (task src "a",
dst "b"), the Task Object is handed back to the pool before the task is
executed and still carries its field values at that moment, so the claimed
"returned only after execution, with fields cleared at return" is false. -/
theorem c9_counterexample :
    returnsCleared (sharedIterEvents ⟨"a", "b", ⟨0o644⟩⟩) = false ∧
    returnsOnlyAfterExec (sharedIterEvents ⟨"a", "b", ⟨0o644⟩⟩) = false := by
  constructor <;> decide

/-! ### C1: the overflow discipline of the worker loop -/

/-- C1: overflow discipline.  Under the pool-conservation invariant of the
engine (the objects in the free pool and the Work Queue never exceed the cap
preallocated ones), the acquisition phase as coded — non-blocking pool
acquire followed by a plain send — behaves exactly as the claim words it:
when the local overflow buffer is non-empty one buffered item is taken, and
it is published iff the non-blocking pool acquire and the queue send can both
succeed, executed directly by the worker otherwise; the coded blocking send
never actually blocks; and the worker performs its blocking receive on the
Work Queue exactly when the local buffer is empty. -/
theorem c1_overflow_discipline (cap : Nat) (s : WState)
    (hpool : s.free + s.queue.length ≤ cap) :
    acquireStepCode cap s = acquireStepSpecWords cap s ∧
    (∀ ct s1, acquireStepCode cap s ≠ .blockedOnSend ct s1) ∧
    (acquireStepCode cap s = .blockedOnRecv ↔
      s.localTasks = [] ∧ s.queue = []) := by
  cases hl : s.localTasks.getLast? with
  | some ct =>
    have hne : s.localTasks ≠ [] := by
      intro h0
      rw [h0] at hl
      simp at hl
    by_cases hf : s.free > 0
    · have hq : s.queue.length < cap := by omega
      refine ⟨?_, ?_, ?_⟩ <;>
        simp [acquireStepCode, acquireStepSpecWords, hl, hf, hq, hne]
    · refine ⟨?_, ?_, ?_⟩ <;>
        simp [acquireStepCode, acquireStepSpecWords, hl, hf, hne]
  | none =>
    have hnil : s.localTasks = [] := List.getLast?_eq_none_iff.mp hl
    cases hq : s.queue with
    | nil =>
      refine ⟨?_, ?_, ?_⟩ <;>
        simp [acquireStepCode, acquireStepSpecWords, hl, hq, hnil]
    | cons a q =>
      refine ⟨?_, ?_, ?_⟩ <;>
        simp [acquireStepCode, acquireStepSpecWords, hl, hq, hnil]

/-- C1 witness: a concrete state with one local task, one free object and one
queued task under capacity 2 satisfies the invariant, and the coded and
specified acquisition phases agree on it. -/
theorem c1_overflow_discipline_witness :
    ((1 : Nat) + 1 ≤ 2) ∧
    (acquireStepCode 2 ⟨[⟨"x", "y", ⟨1⟩⟩], 1, [⟨"p", "q", ⟨2⟩⟩]⟩ =
      acquireStepSpecWords 2 ⟨[⟨"x", "y", ⟨1⟩⟩], 1, [⟨"p", "q", ⟨2⟩⟩]⟩) :=
  ⟨by decide,
    (c1_overflow_discipline 2 ⟨[⟨"x", "y", ⟨1⟩⟩], 1, [⟨"p", "q", ⟨2⟩⟩]⟩
      (by decide)).1⟩

/-! ### Simulator lemmas: conservation, tracker balance and the potential -/

theorem FSTree.one_le_size (t : FSTree) : 1 ≤ t.size := by
  cases t <;> simp [FSTree.size]

theorem sizeL_append (l1 l2 : List FSTree) :
    FSTree.sizeL (l1 ++ l2) = FSTree.sizeL l1 + FSTree.sizeL l2 := by
  induction l1 with
  | nil => simp [FSTree.sizeL]
  | cons t ts ih => simp [FSTree.sizeL, ih]; omega

theorem qphiL_append (l1 l2 : List FSTree) :
    qphiL (l1 ++ l2) = qphiL l1 + qphiL l2 := by
  induction l1 with
  | nil => simp [qphiL]
  | cons t ts ih => simp [qphiL, ih]; omega

theorem pushChild_facts (s : SimSt) (c : FSTree) :
    (pushChild s c).added = s.added + 1 ∧
    (pushChild s c).done = s.done ∧
    (pushChild s c).localTasks.length + (pushChild s c).queue.length
      = s.localTasks.length + s.queue.length + 1 ∧
    (pushChild s c).free + (pushChild s c).queue.length
      = s.free + s.queue.length ∧
    phi (pushChild s c) ≤ phi s + 2 * c.size := by
  have hc := FSTree.one_le_size c
  by_cases hf : s.free > 0 <;>
    simp [pushChild, hf, phi, sizeL_append, qphiL_append, FSTree.sizeL,
      qphiL] <;>
    omega

theorem pushChildren_facts (cs : List FSTree) : ∀ s : SimSt,
    (pushChildren s cs).added = s.added + cs.length ∧
    (pushChildren s cs).done = s.done ∧
    (pushChildren s cs).localTasks.length + (pushChildren s cs).queue.length
      = s.localTasks.length + s.queue.length + cs.length ∧
    (pushChildren s cs).free + (pushChildren s cs).queue.length
      = s.free + s.queue.length ∧
    phi (pushChildren s cs) ≤ phi s + 2 * FSTree.sizeL cs := by
  induction cs with
  | nil => intro s; simp [pushChildren, FSTree.sizeL]
  | cons c cs ih =>
    intro s
    have h1 := pushChild_facts s c
    have h2 := ih (pushChild s c)
    have hfold : pushChildren s (c :: cs) = pushChildren (pushChild s c) cs := by
      simp [pushChildren]
    rw [hfold]
    simp only [FSTree.sizeL, List.length_cons]
    omega

theorem simExec_facts (t : FSTree) (s : SimSt) :
    (simExec true s t).done = s.done + 1 ∧
    ∃ k, (simExec true s t).added = s.added + k ∧
      (simExec true s t).localTasks.length + (simExec true s t).queue.length
        = s.localTasks.length + s.queue.length + k ∧
      (simExec true s t).free + (simExec true s t).queue.length
        = s.free + s.queue.length ∧
      phi (simExec true s t) + 2 ≤ phi s + 2 * t.size := by
  cases t with
  | file =>
    refine ⟨by simp [simExec], 0, by simp [simExec], by simp [simExec],
      by simp [simExec], ?_⟩
    have : phi (simExec true s .file) = phi s := by simp [simExec, phi]
    simp [this, FSTree.size]
  | link =>
    refine ⟨by simp [simExec], 0, by simp [simExec], by simp [simExec],
      by simp [simExec], ?_⟩
    have : phi (simExec true s .link) = phi s := by simp [simExec, phi]
    simp [this, FSTree.size]
  | dir cs =>
    obtain ⟨h1, h2, h3, h4, h5⟩ := pushChildren_facts cs s
    have he : simExec true s (.dir cs)
        = { pushChildren s cs with done := (pushChildren s cs).done + 1 } := by
      simp [simExec]
    have hphi : phi { pushChildren s cs with done := (pushChildren s cs).done + 1 }
        = phi (pushChildren s cs) := by simp [phi]
    refine ⟨?_, cs.length, ?_, ?_, ?_, ?_⟩ <;>
      simp [he, hphi, FSTree.size] <;>
      omega

theorem simStep_blockedRecv_facts (cap : Nat) (rec : Bool) (s : SimSt)
    (h : simStep cap rec s = .blockedRecv) :
    s.localTasks = [] ∧ s.queue = [] := by
  unfold simStep at h
  cases hl : s.localTasks.getLast? with
  | some ct =>
    rw [hl] at h
    by_cases hf : s.free > 0
    · by_cases hq : s.queue.length < cap <;> simp [hf, hq] at h
    · simp [hf] at h
  | none =>
    have hnil : s.localTasks = [] := List.getLast?_eq_none_iff.mp hl
    rw [hl] at h
    cases hq : s.queue with
    | nil => exact ⟨hnil, by simp [hq]⟩
    | cons a q => rw [hq] at h; simp at h

theorem simStep_no_blockedSend (cap : Nat) (rec : Bool) (s : SimSt)
    (hfq : s.free + s.queue.length = cap) :
    simStep cap rec s ≠ .blockedSend := by
  intro h
  unfold simStep at h
  cases hl : s.localTasks.getLast? with
  | some ct =>
    rw [hl] at h
    by_cases hf : s.free > 0
    · have hq : s.queue.length < cap := by omega
      simp [hf, hq] at h
    · simp [hf] at h
  | none =>
    rw [hl] at h
    cases hq : s.queue with
    | nil => rw [hq] at h; simp at h
    | cons a q => rw [hq] at h; simp at h

theorem simStep_next_facts (cap : Nat) (s s1 : SimSt) (hInv : SimInv cap s)
    (h : simStep cap true s = .next s1) :
    SimInv cap s1 ∧ phi s1 + 1 ≤ phi s := by
  obtain ⟨hbal, hfq⟩ := hInv
  unfold simStep at h
  cases hl : s.localTasks.getLast? with
  | some ct =>
    rw [hl] at h
    have hdecomp : s.localTasks.dropLast ++ [ct] = s.localTasks :=
      List.dropLast_append_getLast? ct (Option.mem_def.mpr hl)
    have hlen : s.localTasks.dropLast.length + 1 = s.localTasks.length := by
      conv_rhs => rw [← hdecomp]
      simp
    have hsize : FSTree.sizeL s.localTasks.dropLast + ct.size
        = FSTree.sizeL s.localTasks := by
      conv_rhs => rw [← hdecomp]
      simp [sizeL_append, FSTree.sizeL]
    have hct := FSTree.one_le_size ct
    by_cases hf : s.free > 0
    · have hq : s.queue.length < cap := by omega
      simp only [hf, hq, if_true, if_pos] at h
      rw [SimStepRes.next.injEq] at h
      subst h
      refine ⟨⟨?_, ?_⟩, ?_⟩
      · simp
        omega
      · simp
        omega
      · simp only [phi, qphiL_append, qphiL]
        simp
        omega
    · simp only [hf, if_false, if_neg, not_false_iff] at h
      rw [SimStepRes.next.injEq] at h
      obtain ⟨e1, k, e2, e3, e4, e5⟩ :=
        simExec_facts ct { s with localTasks := s.localTasks.dropLast }
      rw [h] at e1 e2 e3 e4 e5
      simp only [phi] at e5
      dsimp only at e1 e2 e3 e4 e5
      refine ⟨⟨?_, ?_⟩, ?_⟩
      · omega
      · omega
      · simp only [phi]
        omega
  | none =>
    have hnil : s.localTasks = [] := List.getLast?_eq_none_iff.mp hl
    rw [hl] at h
    cases hq : s.queue with
    | nil => rw [hq] at h; simp at h
    | cons ct q =>
      rw [hq] at h
      rw [SimStepRes.next.injEq] at h
      have hct := FSTree.one_le_size ct
      obtain ⟨e1, k, e2, e3, e4, e5⟩ :=
        simExec_facts ct { s with queue := q, free := s.free + 1 }
      rw [h] at e1 e2 e3 e4 e5
      simp only [phi] at e5
      dsimp only at e1 e2 e3 e4 e5
      have hql : s.queue.length = q.length + 1 := by rw [hq]; simp
      have hlnil : s.localTasks.length = 0 := by rw [hnil]; simp
      have hsnil : FSTree.sizeL s.localTasks = 0 := by
        rw [hnil]; simp [FSTree.sizeL]
      have hqphi : qphiL s.queue = (2 * ct.size - 1) + qphiL q := by
        rw [hq]; simp [qphiL]
      refine ⟨⟨?_, ?_⟩, ?_⟩
      · omega
      · omega
      · simp only [phi]
        omega

theorem simRun_completes (cap : Nat) : ∀ (fuel : Nat) (s : SimSt),
    SimInv cap s → phi s < fuel →
    ∃ fin, simRun cap true fuel s = some fin ∧ fin.localTasks = [] ∧
      fin.queue = [] ∧ fin.added = fin.done ∧ fin.free = cap := by
  intro fuel
  induction fuel with
  | zero => intro s _ h; exact absurd h (Nat.not_lt_zero _)
  | succ n ih =>
    intro s hInv hphi
    cases hs : simStep cap true s with
    | blockedRecv =>
      obtain ⟨h1, h2⟩ := simStep_blockedRecv_facts cap true s hs
      refine ⟨s, by simp [simRun, hs], h1, h2, ?_, ?_⟩
      · have hbal := hInv.1
        rw [h1, h2] at hbal
        simpa using hbal
      · have hfq := hInv.2
        rw [h2] at hfq
        simpa using hfq
    | blockedSend => exact absurd hs (simStep_no_blockedSend cap true s hInv.2)
    | next s1 =>
      obtain ⟨hInv1, hphi1⟩ := simStep_next_facts cap s s1 hInv hs
      obtain ⟨fin, hrun, hr2, hr3, hr4, hr5⟩ := ih s1 hInv1 (by omega)
      exact ⟨fin, by simp [simRun, hs, hrun], hr2, hr3, hr4, hr5⟩

/-- C2: no-deadlock termination.  For a directory copied with recursion
enabled whose child count exceeds the Work Queue capacity, the single-worker
run — the schedule in which the discovering worker gets no help, so every
child beyond the queue capacity must go through its local overflow buffer —
still terminates: with enough fuel the simulation reaches the worker's
blocking receive with the overflow buffer and the Work Queue empty and the
Completion Tracker at exactly zero. -/
theorem c2_no_deadlock_termination (cap : Nat) (cs : List FSTree)
    (hcap : 1 ≤ cap) (_hover : cap < cs.length) :
    ∃ fuel fin, simRun cap true fuel (initSt cap (.dir cs)) = some fin ∧
      fin.localTasks = [] ∧ fin.queue = [] ∧ fin.added = fin.done := by
  have hInv : SimInv cap (initSt cap (.dir cs)) := by
    constructor
    · simp [initSt]
    · simp [initSt]
      omega
  obtain ⟨fin, h1, h2, h3, h4, _⟩ :=
    simRun_completes cap (phi (initSt cap (.dir cs)) + 1) (initSt cap (.dir cs))
      hInv (by omega)
  exact ⟨phi (initSt cap (.dir cs)) + 1, fin, h1, h2, h3, h4⟩

/-- C2 witness: capacity 1 with a two-child directory (children exceed the
queue capacity); the run completes with the tracker at zero. -/
theorem c2_no_deadlock_termination_witness :
    (1 ≤ 1) ∧ (1 < ([FSTree.file, FSTree.file] : List FSTree).length) ∧
    (∃ fuel fin, simRun 1 true fuel (initSt 1 (.dir [.file, .file])) = some fin ∧
      fin.localTasks = [] ∧ fin.queue = [] ∧ fin.added = fin.done) :=
  ⟨by decide, by decide,
    c2_no_deadlock_termination 1 [.file, .file] (by decide) (by decide)⟩

/-- C3 counterexample: a directory task executed by a worker whose
configuration has recursion disabled takes the omitting-directory branch
(cpcp.go lines 316-318), whose continue skips the wg.Done of line 402, so
that branch does not decrement the Completion Tracker exactly once. -/
theorem c3_counterexample :
    (execTask ⟨0, false, false, 1000, 0o022, false, false⟩
        ⟨.ok, true, true, [], false, true, true, true, true, none, true⟩
        ⟨"a", "b", ⟨modeDir⟩⟩).wgDones ≠ 1 := by
  decide

/-- C3 (amended): every task branch other than the omitting-directory branch
— directory with recursion enabled, regular file, symlink, success or
reported error — decrements the Completion Tracker exactly once per executed
task; the omitting-directory branch decrements zero times but is unreachable
in a full run, since directory tasks are only ever submitted when recursion
is enabled; each iteration preserves the tracker balance (never negative),
and over a full run the increments equal the decrements and the tracker
reaches exactly zero. -/
theorem c3_tracker_balance_amended :
    (∀ (cfg : Config) (env : FSEnv) (t : CTask),
      (t.srcfi.IsDir = true → cfg.recursive = true) →
      (execTask cfg env t).wgDones = 1) ∧
    (∀ (cap : Nat) (s s1 : SimSt), SimInv cap s →
      simStep cap true s = .next s1 → SimInv cap s1 ∧ s1.done ≤ s1.added) ∧
    (∀ (cap : Nat) (root : FSTree), 1 ≤ cap →
      ∃ fuel fin, simRun cap true fuel (initSt cap root) = some fin ∧
        fin.added = fin.done) := by
  refine ⟨?_, ?_, ?_⟩
  · intro cfg env t hdr
    cases hd : t.srcfi.IsDir with
    | true =>
      have hrec := hdr hd
      cases hdo : env.dirOpenOk <;> simp [execTask, hd, hrec, hdo]
    | false =>
      cases hr : t.srcfi.IsRegular with
      | true =>
        cases ho : env.openOk <;> cases hc : env.createOk <;>
          simp [execTask, hd, hr, ho, hc]
      | false =>
        have ht := symlinkTest_eq_true t.srcfi.mode
        cases hrl : env.readlinkRes <;> simp [execTask, hd, hr, ht, hrl]
  · intro cap s s1 hInv hstep
    obtain ⟨hInv1, _⟩ := simStep_next_facts cap s s1 hInv hstep
    refine ⟨hInv1, ?_⟩
    have hb := hInv1.1
    omega
  · intro cap root hcap
    have hInv : SimInv cap (initSt cap root) := by
      constructor
      · simp [initSt]
      · simp [initSt]
        omega
    obtain ⟨fin, h1, _, _, h4, _⟩ :=
      simRun_completes cap (phi (initSt cap root) + 1) (initSt cap root)
        hInv (by omega)
    exact ⟨phi (initSt cap root) + 1, fin, h1, h4⟩

/-- C3 witness: a regular-file task decrements exactly once; a one-node run
at capacity 1 ends with increments equal to decrements. -/
theorem c3_tracker_balance_amended_witness :
    ((execTask ⟨0, false, true, 1000, 0o022, false, false⟩
        ⟨.ok, true, true, [], false, true, true, true, true, none, true⟩
        ⟨"a", "b", ⟨0o644⟩⟩).wgDones = 1) ∧
    (∃ fuel fin, simRun 1 true fuel (initSt 1 .file) = some fin ∧
      fin.added = fin.done) :=
  ⟨c3_tracker_balance_amended.1 ⟨0, false, true, 1000, 0o022, false, false⟩
      ⟨.ok, true, true, [], false, true, true, true, true, none, true⟩
      ⟨"a", "b", ⟨0o644⟩⟩ (by decide),
    c3_tracker_balance_amended.2.2 1 .file (by decide)⟩

/-! ### Object conservation, for the amended recycling claim -/

theorem simExec_objects (rec : Bool) (t : FSTree) (s : SimSt) :
    (simExec rec s t).free + (simExec rec s t).queue.length
      = s.free + s.queue.length := by
  cases t with
  | file => simp [simExec]
  | link => simp [simExec]
  | dir cs =>
    cases hr : rec with
    | true =>
      obtain ⟨_, _, _, h4, _⟩ := pushChildren_facts cs s
      simp only [simExec]
      simpa using h4
    | false => simp [simExec]

theorem simStep_preserves_objects (cap : Nat) (rec : Bool) (s s1 : SimSt)
    (hfq : s.free + s.queue.length = cap)
    (h : simStep cap rec s = .next s1) :
    s1.free + s1.queue.length = cap := by
  unfold simStep at h
  cases hl : s.localTasks.getLast? with
  | some ct =>
    rw [hl] at h
    by_cases hf : s.free > 0
    · by_cases hq : s.queue.length < cap
      · simp only [hf, hq, if_pos] at h
        rw [SimStepRes.next.injEq] at h
        subst h
        simp
        omega
      · simp [hf, hq] at h
    · simp only [hf, if_neg, not_false_iff] at h
      rw [SimStepRes.next.injEq] at h
      have ho := simExec_objects rec ct { s with localTasks := s.localTasks.dropLast }
      rw [h] at ho
      dsimp only at ho
      omega
  | none =>
    rw [hl] at h
    cases hq : s.queue with
    | nil => rw [hq] at h; simp at h
    | cons ct q =>
      rw [hq] at h
      rw [SimStepRes.next.injEq] at h
      have ho := simExec_objects rec ct { s with queue := q, free := s.free + 1 }
      rw [h] at ho
      dsimp only at ho
      have hql : s.queue.length = q.length + 1 := by rw [hq]; simp
      omega

/-- C9 (amended): on the shared path, every Task Object taken from the Work
Queue is handed back to the free pool immediately after its fields are copied
out and strictly before the task is executed; the object's fields are not
cleared at return — the returned object is the received one, still carrying
the task's field values, overwritten only on reuse; and no Task Object is
ever freed: one engine step conserves the count of pooled objects split
between the free pool and the Work Queue, so the cap preallocated objects
are recycled for the life of the process. -/
theorem c9_task_recycling_amended :
    (∀ ct : CTask, ∃ evs1 evs2,
      sharedIterEvents ct = evs1 ++ .returnToPool ct :: evs2 ∧
      (∀ e ∈ evs1, ∀ t : CTask, e ≠ .execute t) ∧
      (.execute ct ∈ evs2)) ∧
    (∀ (cap : Nat) (rec : Bool) (s s1 : SimSt),
      s.free + s.queue.length = cap → simStep cap rec s = .next s1 →
      s1.free + s1.queue.length = cap) := by
  constructor
  · intro ct
    refine ⟨[.recvTask ct], [.execute ct], rfl, ?_, by simp⟩
    intro e he t
    simp at he
    subst he
    simp
  · intro cap rec s s1 hfq h
    exact simStep_preserves_objects cap rec s s1 hfq h

/-- C9 amended witness: a concrete iteration and a concrete conserving step
at capacity 1. -/
theorem c9_task_recycling_amended_witness :
    (∃ evs1 evs2,
      sharedIterEvents ⟨"a", "b", ⟨0o644⟩⟩
        = evs1 ++ .returnToPool ⟨"a", "b", ⟨0o644⟩⟩ :: evs2 ∧
      (∀ e ∈ evs1, ∀ t : CTask, e ≠ .execute t) ∧
      (.execute ⟨"a", "b", ⟨0o644⟩⟩ ∈ evs2)) ∧
    (((⟨[], [.file], 0, 1, 0⟩ : SimSt).free
        + (⟨[], [.file], 0, 1, 0⟩ : SimSt).queue.length = 1) ∧
      ∀ s1, simStep 1 true ⟨[], [.file], 0, 1, 0⟩ = .next s1 →
        s1.free + s1.queue.length = 1) :=
  ⟨c9_task_recycling_amended.1 ⟨"a", "b", ⟨0o644⟩⟩,
    by decide,
    fun s1 h => c9_task_recycling_amended.2 1 true ⟨[], [.file], 0, 1, 0⟩ s1
      (by decide) h⟩

/-! ### C7: the multi-source driver policy -/

theorem multiSubmitLoop_char (cfg : Config) (statOf lstatOf : String → StatRes)
    (dst : String) : ∀ srcs : List String,
    multiSubmitLoop cfg statOf lstatOf dst srcs =
      (srcs.filterMap (fun s =>
         match (if cfg.noDereference then lstatOf s else statOf s) with
         | .ok fi =>
           if fi.IsDir && !cfg.recursive then some (.omitDir s) else none
         | _ => some (.statErr s)),
       srcs.filterMap (fun s =>
         match (if cfg.noDereference then lstatOf s else statOf s) with
         | .ok fi =>
           if fi.IsDir && !cfg.recursive then none
           else some ⟨s, pathJoin dst (pathBase s), fi⟩
         | _ => none)) := by
  intro srcs
  induction srcs with
  | nil => simp [multiSubmitLoop]
  | cons src rest ih =>
    cases hs : (if cfg.noDereference then lstatOf src else statOf src) with
    | ok fi =>
      cases hdir : fi.IsDir <;> cases hrec : cfg.recursive <;>
        simp [multiSubmitLoop, ih, hs, hdir, hrec, List.filterMap_cons]
    | notExist => simp [multiSubmitLoop, ih, hs, List.filterMap_cons]
    | err => simp [multiSubmitLoop, ih, hs, List.filterMap_cons]

/-- C7: multi-source destination policy.  When the destination does not stat
as an existing directory — it does not exist, or exists but is not a
directory — the driver submits zero tasks and reports exactly one policy
error, the target-is-not-a-directory line.  Otherwise it stats each source
independently, continues past individual stat failures, and submits exactly
one task per source that stats successfully and is not an omitted directory,
with destination destination/basename(source). -/
theorem c7_multi_source_policy (cfg : Config) (statOf lstatOf : String → StatRes)
    (srcs : List String) (dst : String) :
    (statOf dst = .notExist →
      multiSourceSubmit cfg statOf lstatOf srcs dst = ([.notADir dst], [])) ∧
    (∀ dfi, statOf dst = .ok dfi → dfi.IsDir = false →
      multiSourceSubmit cfg statOf lstatOf srcs dst = ([.notADir dst], [])) ∧
    (∀ dfi, statOf dst = .ok dfi → dfi.IsDir = true →
      (multiSourceSubmit cfg statOf lstatOf srcs dst).2 =
        srcs.filterMap (fun s =>
          match (if cfg.noDereference then lstatOf s else statOf s) with
          | .ok fi =>
            if fi.IsDir && !cfg.recursive then none
            else some ⟨s, pathJoin dst (pathBase s), fi⟩
          | _ => none) ∧
      (multiSourceSubmit cfg statOf lstatOf srcs dst).1 =
        srcs.filterMap (fun s =>
          match (if cfg.noDereference then lstatOf s else statOf s) with
          | .ok fi =>
            if fi.IsDir && !cfg.recursive then some (.omitDir s) else none
          | _ => some (.statErr s))) := by
  refine ⟨?_, ?_, ?_⟩
  · intro h
    simp [multiSourceSubmit, h]
  · intro dfi h hdir
    simp [multiSourceSubmit, h, hdir]
  · intro dfi h hdir
    have hc := multiSubmitLoop_char cfg statOf lstatOf dst srcs
    constructor <;> simp [multiSourceSubmit, h, hdir, hc]

/-- C7 witness: a non-existent destination with two sources yields exactly
the one policy error and no tasks. -/
theorem c7_multi_source_policy_witness :
    ((fun _ : String => StatRes.notExist) "d" = StatRes.notExist) ∧
    (multiSourceSubmit ⟨0, false, true, 1000, 0, false, false⟩
        (fun _ => .notExist) (fun _ => .notExist) ["s1", "s2"] "d"
      = ([.notADir "d"], [])) :=
  ⟨rfl,
    (c7_multi_source_policy ⟨0, false, true, 1000, 0, false, false⟩
      (fun _ => .notExist) (fun _ => .notExist) ["s1", "s2"] "d").1 rfl⟩

/-! ### C10: the preserve-links flag is inert after parsing -/

theorem multiSubmitLoop_preserveLinks (cfg : Config) (b : Bool)
    (statOf lstatOf : String → StatRes) (dst : String) :
    ∀ srcs : List String,
    multiSubmitLoop { cfg with preserveLinks := b } statOf lstatOf dst srcs
      = multiSubmitLoop cfg statOf lstatOf dst srcs := by
  intro srcs
  induction srcs with
  | nil => rfl
  | cons src rest ih => simp only [multiSubmitLoop, ih]

/-- C10: the preserve-links flag is inert.  The parser does set it — both the
links and the all preserve specifications flip it — but no embedded driver or
worker behavior reads it: the per-task execution trace, the single-source
submission and the multi-source submission are unchanged under any value of
the flag, so two runs identical except for preserve-links perform identical
operations and emit identical lines. -/
theorem c10_preserve_links_inert :
    (∀ cfg : Config,
      setPreserve cfg "links" = some { cfg with preserveLinks := true }) ∧
    (∀ cfg : Config,
      setPreserve cfg "all"
        = some { cfg with preserveLinks := true, preserveMode := true }) ∧
    (∀ (cfg : Config) (b : Bool) (env : FSEnv) (t : CTask),
      execTask { cfg with preserveLinks := b } env t = execTask cfg env t) ∧
    (∀ (cfg : Config) (b : Bool) (statOf lstatOf : String → StatRes)
        (src dst : String),
      singleSourceSubmit { cfg with preserveLinks := b } statOf lstatOf src dst
        = singleSourceSubmit cfg statOf lstatOf src dst) ∧
    (∀ (cfg : Config) (b : Bool) (statOf lstatOf : String → StatRes)
        (srcs : List String) (dst : String),
      multiSourceSubmit { cfg with preserveLinks := b } statOf lstatOf srcs dst
        = multiSourceSubmit cfg statOf lstatOf srcs dst) := by
  refine ⟨?_, ?_, ?_, ?_, ?_⟩
  · intro cfg
    cases cfg
    rfl
  · intro cfg
    cases cfg
    rfl
  · intro cfg b env t
    cases cfg
    rfl
  · intro cfg b statOf lstatOf src dst
    cases cfg
    rfl
  · intro cfg b statOf lstatOf srcs dst
    cases h : statOf dst <;>
      simp [multiSourceSubmit, h, multiSubmitLoop_preserveLinks]

end Cpcp
